import Mathlib

/-!
Shallow embedding of the ICMP echo ("ping") core of the crabyknife toolkit
(`src/ping.rs`): the RFC 1071 Internet checksum, the Echo Request packet
builder `build_packet`, and the resolve/send/receive probe loop of `ping`,
together with theorems checking the specified properties.

Bytes are modelled as `Nat` values (a `u8` is a `Nat` below 256); the `u32`
checksum accumulator wraps at `2 ^ 32` exactly where the Rust addition does,
and a `u16` argument is encoded by reducing modulo `2 ^ 16` on entry.
-/

namespace Crabyknife

/-- Modulus of `u32`: the accumulator `sum` in `checksum` is a `u32`. -/
def U32 : Nat := 4294967296

/-- Modulus of `u16`. -/
def U16 : Nat := 65536

/-- The summation loop of `checksum` over `data.chunks(2)`: a full chunk
`[a, b]` contributes `u16::from_be_bytes([a, b]) = a * 256 + b`, a final
lone byte `a` contributes `(a as u16) << 8 = a * 256`; each addition is the
Rust `sum += val as u32` on a `u32` accumulator. -/
def sumLoop : Nat → List Nat → Nat
  | sum, [] => sum
  | sum, [a] => (sum + a * 256) % U32
  | sum, a :: b :: rest => sumLoop ((sum + (a * 256 + b)) % U32) rest

/-- The end-around-carry loop of `checksum`:
`while (sum >> 16) != 0 { sum = (sum & 0xFFFF) + (sum >> 16) }`.
On `Nat`, `sum >> 16` is `sum / 65536` and `sum & 0xFFFF` is `sum % 65536`. -/
def foldCarry (sum : Nat) : Nat :=
  if sum / U16 = 0 then sum
  else foldCarry (sum % U16 + sum / U16)
termination_by sum
decreasing_by
  have hq : 1 ≤ sum / U16 := Nat.pos_of_ne_zero (by assumption)
  simp only [U16] at *
  omega

/-- Embedding of `checksum(data)` from `src/ping.rs`: sum the 16-bit big-endian words,
fold the carries, and return the bitwise complement of the low 16 bits
(`!(sum as u16)`, i.e. `65535 - (sum % 2^16)` since the folded sum is below
`2 ^ 16`). -/
def checksum (data : List Nat) : Nat :=
  65535 - (foldCarry (sumLoop 0 data) % U16)

/-- Big-endian bytes of a `u16` value `x`: `x.to_be_bytes()`. -/
def beBytes (x : Nat) : List Nat := [x / 256 % 256, x % 256]

/-- Embedding of `build_packet(seq, pid)` from `src/ping.rs`: an 8-byte ICMP header
`[type = 8, code = 0, cs_hi, cs_lo, pid_be, seq_be]` whose checksum bytes
are computed over the packet with the checksum field still zero. The `u16`
arguments are encoded by reducing modulo `2 ^ 16`. -/
def build_packet (seq pid : Nat) : List Nat :=
  let s := seq % U16
  let p := pid % U16
  let zeroed : List Nat := [8, 0] ++ [0, 0] ++ beBytes p ++ beBytes s
  let cs := checksum zeroed
  [8, 0] ++ beBytes cs ++ beBytes p ++ beBytes s

/-- Mathematical (non-wrapping) word sum of `data.chunks(2)`, used to reason
about `sumLoop` on inputs whose `u32` accumulator cannot overflow. -/
def sumWords : List Nat → Nat
  | [] => 0
  | [a] => a * 256
  | a :: b :: rest => (a * 256 + b) + sumWords rest

/-- Result of one `socket.recv_from` call: `ok n buf` is `Ok((n, _))` with
`n` bytes read into `buf`; `err` is any `Err(_)` (timeout or receive error). -/
inductive RecvResult where
  | ok (n : Nat) (buf : List Nat)
  | err
deriving DecidableEq

/-- Per-probe outcome printed by the loop body of `ping`: a reply line, a
malformed-packet line, or a timed-out line for the probe's sequence number. -/
inductive Outcome where
  | reply (seq : Nat)
  | malformed
  | timeout (seq : Nat)
deriving DecidableEq

/-- Errors that abort the whole `ping` run (returned as `Err` from `ping`). -/
inductive PingErr where
  | resolveFail
  | sendFail
deriving DecidableEq

/-- The reply-classification test in the loop body of `ping`:
`n >= 20 + 8 && buf[20] == ICMP_ECHO_REPLY` (with `ICMP_ECHO_REPLY = 0`);
the `&&` short-circuits, so `buf[20]` is read only when `n` is large enough. -/
def classify (n : Nat) (buf : List Nat) : Bool :=
  if 20 + 8 ≤ n then buf.getD 20 0 == 0 else false

/-- The outcome the loop body reports for sequence `seq` once `recv_from`
returned `r`: a successful receive of a classified reply prints a reply line,
a successful receive otherwise prints the malformed line, an `Err` prints the
timed-out line for `seq`. -/
def probeOutcome (seq : Nat) (r : RecvResult) : Outcome :=
  match r with
  | .ok n buf => if classify n buf then .reply seq else .malformed
  | .err => .timeout seq

/-- The `for seq in 0..5` loop of `ping`, over an explicit list of sequence
numbers and a transport oracle: each iteration builds the packet, attempts
the send (a failed `send_to` aborts the run with a fatal error via `?`),
then reports the outcome of `recv_from` and continues. Returns the list of
packets built and handed to `send_to`, and either the outcome list or the
fatal error. -/
def loopModel (pid : Nat) (sendOk : Nat → Bool) (recv : Nat → RecvResult) :
    List Nat → List (List Nat) × Except PingErr (List Outcome)
  | [] => ([], Except.ok [])
  | seq :: rest =>
    let pkt := build_packet seq pid
    if sendOk seq then
      let r := loopModel pid sendOk recv rest
      (pkt :: r.1, r.2.map (fun os => probeOutcome seq (recv seq) :: os))
    else
      ([pkt], Except.error PingErr.sendFail)

/-- The `ping` run: name resolution happens first (a lookup failure or an
empty address iterator aborts before any packet is built), then
`pid = std::process::id() as u16` is computed once, then the loop runs over
sequence numbers `0..5`. -/
def pingModel (resolved : Option Unit) (procId : Nat) (sendOk : Nat → Bool)
    (recv : Nat → RecvResult) : List (List Nat) × Except PingErr (List Outcome) :=
  match resolved with
  | none => ([], Except.error PingErr.resolveFail)
  | some _ => loopModel (procId % U16) sendOk recv (List.range 5)

/-- Zero the checksum field (bytes 2 and 3) of a packet. -/
def zeroCS (pkt : List Nat) : List Nat :=
  (pkt.set 2 0).set 3 0

theorem checksum_le (data : List Nat) : checksum data ≤ 65535 :=
  Nat.sub_le _ _

theorem foldCarry_lt (s : Nat) : foldCarry s < U16 := by
  induction s using foldCarry.induct with
  | case1 s h =>
    unfold foldCarry
    simp only [h, if_true]
    simp only [U16] at *
    omega
  | case2 s h ih =>
    unfold foldCarry
    simp only [h, if_neg, if_false]
    exact ih

theorem foldCarry_mod (s : Nat) : foldCarry s % 65535 = s % 65535 := by
  induction s using foldCarry.induct with
  | case1 s h =>
    unfold foldCarry
    simp only [h, if_true]
  | case2 s h ih =>
    unfold foldCarry
    simp only [h, if_neg, if_false]
    rw [ih]
    simp only [U16]
    omega

theorem foldCarry_pos (s : Nat) (hs : 1 ≤ s) : 1 ≤ foldCarry s := by
  induction s using foldCarry.induct with
  | case1 s h =>
    unfold foldCarry
    simpa only [h, if_true] using hs
  | case2 s h ih =>
    unfold foldCarry
    simp only [h, if_neg, if_false]
    refine ih ?_
    have hq : 1 ≤ s / U16 := Nat.pos_of_ne_zero h
    omega

/-- If the folded sum is a positive multiple of `0xFFFF`, the fold yields
exactly `0xFFFF` (the ones-complement sum saturates). -/
theorem foldCarry_eq_ffff (s : Nat) (h0 : s % 65535 = 0) (h1 : 1 ≤ s) :
    foldCarry s = 65535 := by
  have hlt := foldCarry_lt s
  have hmod := foldCarry_mod s
  have hpos := foldCarry_pos s h1
  simp only [U16] at hlt
  omega

theorem sumLoop_eq_sumWords (init : Nat) (data : List Nat)
    (h : init + sumWords data < U32) : sumLoop init data = init + sumWords data := by
  induction init, data using sumLoop.induct with
  | case1 init =>
    simp [sumLoop, sumWords]
  | case2 init a =>
    simp only [sumWords] at h
    simp [sumLoop, sumWords, Nat.mod_eq_of_lt h]
  | case3 init a b rest ih =>
    simp only [sumWords] at h
    have hstep : init + (a * 256 + b) < U32 := by omega
    rw [Nat.mod_eq_of_lt hstep] at ih
    simp only [sumLoop, Nat.mod_eq_of_lt hstep, sumWords]
    rw [ih (by omega)]
    omega

theorem sumWords_le (data : List Nat) (h : ∀ b ∈ data, b < 256) :
    sumWords data ≤ 65535 * data.length := by
  induction data using sumWords.induct with
  | case1 => simp [sumWords]
  | case2 a =>
    have ha : a < 256 := h a (by simp)
    simp only [sumWords, List.length_singleton]
    omega
  | case3 a b rest ih =>
    have ha : a < 256 := h a (by simp)
    have hb : b < 256 := h b (by simp)
    have hrest : sumWords rest ≤ 65535 * rest.length :=
      ih fun x hx => h x (by simp [hx])
    simp only [sumWords, List.length_cons]
    omega

theorem sumWords_append_single (data : List Nat) (a : Nat)
    (h : data.length % 2 = 0) : sumWords (data ++ [a]) = sumWords data + a * 256 := by
  induction data using sumWords.induct with
  | case1 => simp [sumWords]
  | case2 x => simp at h
  | case3 x y rest ih =>
    have hrest : rest.length % 2 = 0 := by
      simp only [List.length_cons] at h
      omega
    have ih' := ih hrest
    simp only [List.cons_append, sumWords, List.append_eq] at ih' ⊢
    omega

/-- A packet with the checksum of the zeroed packet stored big-endian into
the checksum field (bytes 2 and 3, as `build_packet` does). -/
def insertCS (b0 b1 : Nat) (rest : List Nat) : List Nat :=
  let cs := checksum (b0 :: b1 :: 0 :: 0 :: rest)
  b0 :: b1 :: cs / 256 :: cs % 256 :: rest

theorem foldCarry_zero : foldCarry 0 = 0 := by
  unfold foldCarry
  simp

/-- Core verification identity: for a packet whose bytes fit in `u8` and
whose `u32` accumulator cannot wrap, storing the checksum of the zeroed
packet into the checksum field makes the folded word sum of the full packet
`0xFFFF`, hence its recomputed checksum `0`. -/
theorem insertCS_verify (b0 b1 : Nat) (rest : List Nat)
    (hb0 : b0 < 256) (hb1 : b1 < 256) (hrest : ∀ b ∈ rest, b < 256)
    (hlen : rest.length ≤ 65532) :
    foldCarry (sumLoop 0 (insertCS b0 b1 rest)) = 65535 ∧
      checksum (insertCS b0 b1 rest) = 0 := by
  have hW : sumWords rest ≤ 65535 * 65532 := by
    have h1 := sumWords_le rest hrest
    have h2 : 65535 * rest.length ≤ 65535 * 65532 :=
      Nat.mul_le_mul_left 65535 hlen
    omega
  set sum0 := sumWords (b0 :: b1 :: 0 :: 0 :: rest) with hsum0
  have hsum0' : sum0 = b0 * 256 + b1 + sumWords rest := by
    simp only [hsum0, sumWords]
    omega
  have hbound0 : sum0 < U32 := by
    simp only [U32]
    omega
  have hloop0 : sumLoop 0 (b0 :: b1 :: 0 :: 0 :: rest) = sum0 := by
    have := sumLoop_eq_sumWords 0 (b0 :: b1 :: 0 :: 0 :: rest) (by omega)
    simpa using this
  set F := foldCarry sum0 with hF
  have hFlt : F < 65536 := by
    have := foldCarry_lt sum0
    simpa [U16] using this
  have hFmod : F % 65535 = sum0 % 65535 := foldCarry_mod sum0
  have hF0 : sum0 = 0 → F = 0 := by
    intro h0
    rw [hF, h0, foldCarry_zero]
  have hFU : F % U16 = F := Nat.mod_eq_of_lt (by simp only [U16]; omega)
  have hcs : checksum (b0 :: b1 :: 0 :: 0 :: rest) = 65535 - F := by
    simp only [checksum, hloop0, ← hF, hFU]
  have hcsle : checksum (b0 :: b1 :: 0 :: 0 :: rest) ≤ 65535 := checksum_le _
  set cs := checksum (b0 :: b1 :: 0 :: 0 :: rest) with hcsdef
  have hrecomb : cs / 256 * 256 + cs % 256 = cs := by omega
  have hsum' : sumWords (b0 :: b1 :: cs / 256 :: cs % 256 :: rest) = sum0 + cs := by
    simp only [sumWords, hsum0']
    omega
  have hbound' : sum0 + cs < U32 := by
    simp only [U32]
    omega
  have hloop' : sumLoop 0 (b0 :: b1 :: cs / 256 :: cs % 256 :: rest) = sum0 + cs := by
    have := sumLoop_eq_sumWords 0 (b0 :: b1 :: cs / 256 :: cs % 256 :: rest)
      (by rw [hsum']; omega)
    rw [hsum'] at this
    simpa using this
  have hmod' : (sum0 + cs) % 65535 = 0 := by
    rw [hcs] at hcsdef
    omega
  have hpos' : 1 ≤ sum0 + cs := by
    rw [hcs] at hcsdef
    omega
  have hfold' : foldCarry (sum0 + cs) = 65535 := foldCarry_eq_ffff _ hmod' hpos'
  have hins : insertCS b0 b1 rest = b0 :: b1 :: cs / 256 :: cs % 256 :: rest := rfl
  constructor
  · rw [hins, hloop', hfold']
  · rw [hins]
    simp only [checksum, hloop', hfold']
    norm_num [U16]

theorem sumWords_replicate_ff (n : Nat) :
    sumWords (List.replicate (2 * n) 255) = n * 65535 := by
  induction n with
  | zero => simp [sumWords]
  | succ n ih =>
    have h2 : 2 * (n + 1) = 2 * n + 1 + 1 := by ring
    rw [h2, List.replicate_succ, List.replicate_succ]
    simp only [sumWords, ih]
    ring

/-- When every send succeeds, the loop builds one packet per sequence number,
in order, and completes with one outcome per sequence number. -/
theorem loopModel_all_sends (pid : Nat) (sendOk : Nat → Bool)
    (recv : Nat → RecvResult) (seqs : List Nat)
    (h : ∀ s ∈ seqs, sendOk s = true) :
    loopModel pid sendOk recv seqs =
      (seqs.map (fun s => build_packet s pid),
        Except.ok (seqs.map (fun s => probeOutcome s (recv s)))) := by
  induction seqs with
  | nil => simp [loopModel]
  | cons seq rest ih =>
    have hs : sendOk seq = true := h seq (by simp)
    have hr := ih fun s hsm => h s (by simp [hsm])
    simp [loopModel, hs, hr, Except.map]

/-- If some send in the list fails, the run aborts with the fatal send
error. -/
theorem loopModel_send_fail (pid : Nat) (sendOk : Nat → Bool)
    (recv : Nat → RecvResult) (seqs : List Nat)
    (h : ∃ k ∈ seqs, sendOk k = false) :
    (loopModel pid sendOk recv seqs).2 = Except.error PingErr.sendFail := by
  induction seqs with
  | nil => simp at h
  | cons seq rest ih =>
    obtain ⟨k, hk, hkf⟩ := h
    by_cases hs : sendOk seq = true
    · have hkr : k ∈ rest := by
        rcases List.mem_cons.mp hk with h1 | h1
        · rw [h1] at hkf; rw [hkf] at hs; exact absurd hs (by simp)
        · exact h1
      have htail := ih ⟨k, hkr, hkf⟩
      simp only [loopModel, hs, if_true]
      rcases hres : (loopModel pid sendOk recv rest).2 with e | os
      · rw [hres] at htail
        simp [Except.map, htail ▸ hres, htail]
      · rw [hres] at htail
        exact absurd htail (by simp)
    · simp [loopModel, hs]

theorem range_five : List.range 5 = [0, 1, 2, 3, 4] := rfl

/-- C1: `build_packet` returns exactly 8 bytes with byte 0 = 8 (Echo Request),
byte 1 = 0 (code), bytes 4-5 = identifier big-endian, bytes 6-7 = sequence
big-endian, and bytes 2-3 = the checksum of the packet with the checksum
field zeroed, stored big-endian; for seq = 0, id = 0x1234 it produces exactly
`[0x08, 0x00, 0xE5, 0xCB, 0x12, 0x34, 0x00, 0x00]`, and that packet
checksum-verifies to zero. -/
theorem build_packet_layout :
    (∀ seq pid : Nat,
      (build_packet seq pid).length = 8 ∧
      (build_packet seq pid).getD 0 9 = 8 ∧
      (build_packet seq pid).getD 1 9 = 0 ∧
      (build_packet seq pid).getD 4 9 = pid % U16 / 256 ∧
      (build_packet seq pid).getD 5 9 = pid % U16 % 256 ∧
      (build_packet seq pid).getD 6 9 = seq % U16 / 256 ∧
      (build_packet seq pid).getD 7 9 = seq % U16 % 256 ∧
      (build_packet seq pid).getD 2 9 * 256 + (build_packet seq pid).getD 3 9 =
        checksum (zeroCS (build_packet seq pid))) ∧
    build_packet 0 0x1234 = [0x08, 0x00, 0xE5, 0xCB, 0x12, 0x34, 0x00, 0x00] ∧
    checksum (build_packet 0 0x1234) = 0 := by
  refine ⟨fun seq pid => ?_, ?_, ?_⟩
  · have hcs := checksum_le [8, 0, 0, 0, pid % 65536 / 256 % 256, pid % 65536 % 256,
      seq % 65536 / 256 % 256, seq % 65536 % 256]
    refine ⟨?_, ?_, ?_, ?_, ?_, ?_, ?_, ?_⟩ <;>
      simp only [build_packet, beBytes, zeroCS, U16, List.set, List.getD_cons_zero,
        List.getD_cons_succ, List.append_eq, List.cons_append, List.nil_append,
        List.length_cons, List.length_nil] <;>
      omega
  · simp [build_packet, checksum, sumLoop, foldCarry, beBytes, U32, U16]
  · simp [build_packet, checksum, sumLoop, foldCarry, beBytes, U32, U16]

/-- C3: a datagram of `n` bytes is classified as a valid Echo Reply iff
`n ≥ 28` and the byte at offset 20 is 0; a 28-byte buffer with byte 20 = 0
classifies as a reply, the same buffer with byte 20 = 3 does not, any buffer
shorter than 28 bytes never does, and no byte other than offset 20 affects
classification. -/
theorem reply_classification_spec :
    (∀ (n : Nat) (buf : List Nat), classify n buf = true ↔ 28 ≤ n ∧ buf.getD 20 0 = 0) ∧
    classify 28 (List.replicate 28 0) = true ∧
    classify 28 (List.replicate 20 0 ++ 3 :: List.replicate 7 0) = false ∧
    (∀ (n : Nat) (buf : List Nat), n < 28 → classify n buf = false) ∧
    (∀ (n : Nat) (buf buf' : List Nat), buf.getD 20 0 = buf'.getD 20 0 →
      classify n buf = classify n buf') := by
  refine ⟨fun n buf => ?_, by decide, by decide, fun n buf h => ?_, fun n buf buf' h => ?_⟩
  · simp only [classify]
    split
    · simp only [beq_iff_eq]
      exact ⟨fun hb => ⟨by omega, hb⟩, fun hb => hb.2⟩
    · simp only [Bool.false_eq_true, false_iff]
      omega
  · simp only [classify]
    split
    · omega
    · rfl
  · simp only [classify, h]

/-- C7: an odd final byte is summed as a 16-bit word with that byte in the
high position: appending a lone byte `a` to an even-length input adds
`a * 256` to the word sum, and `checksum [0xAB]` sums the word `0xAB00`,
yielding its ones-complement `0x54FF`. -/
theorem odd_padding_spec :
    (∀ (data : List Nat) (a : Nat), data.length % 2 = 0 →
      sumWords data + a * 256 < U32 →
      sumLoop 0 (data ++ [a]) = sumLoop 0 data + a * 256) ∧
    sumLoop 0 [0xAB] = 0xAB00 ∧
    checksum [0xAB] = 0x54FF := by
  refine ⟨fun data a hlen hbound => ?_, ?_, ?_⟩
  · have happ := sumWords_append_single data a hlen
    have h1 := sumLoop_eq_sumWords 0 (data ++ [a]) (by omega)
    have h2 := sumLoop_eq_sumWords 0 data (by omega)
    omega
  · simp [sumLoop, U32]
  · simp [checksum, sumLoop, foldCarry, U32, U16]

/-- C7 witness: the general odd-padding law applied to the even-length input
`[1, 2]` and lone byte `0xAB`. -/
theorem odd_padding_spec_witness :
    sumLoop 0 ([1, 2] ++ [0xAB]) = sumLoop 0 [1, 2] + 0xAB * 256 :=
  odd_padding_spec.1 [1, 2] 0xAB (by decide) (by norm_num [sumWords, U32])

/-- C10: the checksum of the empty byte sequence is `0xFFFF`: the summation
loop contributes nothing, no carry fold occurs, and the complement of 0 is
returned. -/
theorem checksum_empty : checksum [] = 0xFFFF := by
  simp [checksum, sumLoop, foldCarry]

/-- C2 counterexample: verification yielding 0x0000 does NOT imply that no
bits were altered. For the 4-byte packet `[0, 0, 0, 0]` the inserted-checksum
packet is `[0, 0, 0xFF, 0xFF]`, which verifies to 0; but the altered packet
`[0xFF, 0xFF, 0xFF, 0xFF]` (first word flipped from 0x0000 to 0xFFFF) also
verifies to 0 while differing from it, refuting the claimed only-if
direction. -/
theorem checksum_alteration_counterexample :
    insertCS 0 0 [] = [0, 0, 0xFF, 0xFF] ∧
    checksum (insertCS 0 0 []) = 0 ∧
    checksum [0xFF, 0xFF, 0xFF, 0xFF] = 0 ∧
    ([0xFF, 0xFF, 0xFF, 0xFF] : List Nat) ≠ insertCS 0 0 [] := by
  have h1 : insertCS 0 0 [] = [0, 0, 0xFF, 0xFF] := by
    simp [insertCS, checksum, sumLoop, foldCarry, U32, U16]
  have h2 : checksum [0, 0, 0xFF, 0xFF] = 0 := by
    simp [checksum, sumLoop, foldCarry, U32, U16]
  have h3 : checksum [0xFF, 0xFF, 0xFF, 0xFF] = 0 := by
    rw [checksum]
    rw [show sumLoop 0 [0xFF, 0xFF, 0xFF, 0xFF] = 131070 from by simp [sumLoop, U32]]
    rw [show foldCarry 131070 = 65535 from by simp [foldCarry, U16]]
    norm_num [U16]
  exact ⟨h1, h1 ▸ h2, h3, by rw [h1]; simp⟩

/-- C2 amended: for any byte sequence (bytes below 256, length small enough
that the `u32` accumulator cannot wrap), computing the checksum with the
checksum field (bytes 2-3) zeroed and inserting the result big-endian into
that field makes the recomputed checksum over the full packet 0x0000, and
equivalently makes the folded 16-bit ones-complement word sum 0xFFFF.
The converse (0x0000 only if unaltered) does not hold. -/
theorem checksum_verify_spec (b0 b1 : Nat) (rest : List Nat)
    (hb0 : b0 < 256) (hb1 : b1 < 256) (hrest : ∀ b ∈ rest, b < 256)
    (hlen : rest.length ≤ 65532) :
    checksum (insertCS b0 b1 rest) = 0 ∧
    foldCarry (sumLoop 0 (insertCS b0 b1 rest)) = 0xFFFF :=
  ⟨(insertCS_verify b0 b1 rest hb0 hb1 hrest hlen).2,
   (insertCS_verify b0 b1 rest hb0 hb1 hrest hlen).1⟩

/-- C2 witness: the verification identity at the concrete zeroed packet
`[8, 0, 0, 0, 0x12, 0x34, 0, 0]` of the end-to-end scenario. -/
theorem checksum_verify_spec_witness :
    checksum (insertCS 8 0 [0x12, 0x34, 0, 0]) = 0 ∧
    foldCarry (sumLoop 0 (insertCS 8 0 [0x12, 0x34, 0, 0])) = 0xFFFF :=
  checksum_verify_spec 8 0 [0x12, 0x34, 0, 0] (by norm_num) (by norm_num)
    (by decide) (by norm_num)

/-- C8: the carry-fold loop terminates on every input with a value fitting
in 16 bits, preserves the value modulo 0xFFFF (so the complement of its low
16 bits is the correct Internet checksum), and on a sequence of 16-bit words
all equal to 0xFFFF (up to 65537 words, needing repeated folds) the checksum
comes out 0. -/
theorem carry_fold_spec :
    (∀ s : Nat, foldCarry s < 65536) ∧
    (∀ s : Nat, foldCarry s % 65535 = s % 65535) ∧
    (∀ n : Nat, n ≤ 65536 → checksum (List.replicate (2 * (n + 1)) 255) = 0) := by
  refine ⟨fun s => by simpa [U16] using foldCarry_lt s, foldCarry_mod, fun n hn => ?_⟩
  have hsw : sumWords (List.replicate (2 * (n + 1)) 255) = (n + 1) * 65535 :=
    sumWords_replicate_ff (n + 1)
  have hbound : (n + 1) * 65535 < U32 := by
    have : (n + 1) * 65535 ≤ 65537 * 65535 := Nat.mul_le_mul_right 65535 (by omega)
    simp only [U32]
    omega
  have hloop : sumLoop 0 (List.replicate (2 * (n + 1)) 255) = (n + 1) * 65535 := by
    have := sumLoop_eq_sumWords 0 (List.replicate (2 * (n + 1)) 255) (by omega)
    omega
  have hfold : foldCarry ((n + 1) * 65535) = 65535 :=
    foldCarry_eq_ffff _ (Nat.mul_mod_left _ _)
      (Nat.one_le_iff_ne_zero.mpr (Nat.mul_ne_zero (by omega) (by norm_num)))
  simp only [checksum, hloop, hfold]
  norm_num [U16]

/-- C8 witness: 65537 words of 0xFFFF (the accumulator reaches
`0xFFFFFFFF`, which needs two folds) still checksum to 0. -/
theorem carry_fold_spec_witness :
    65536 ≤ 65536 ∧ checksum (List.replicate (2 * (65536 + 1)) 255) = 0 :=
  ⟨by norm_num, carry_fold_spec.2.2 65536 (by norm_num)⟩

/-- C3 witness: a buffer shorter than 28 bytes classifies as not-a-reply. -/
theorem reply_classification_spec_witness :
    classify 27 (List.replicate 27 0) = false :=
  reply_classification_spec.2.2.2.1 27 (List.replicate 27 0) (by norm_num)

/-- C4: a receive timeout or error is reported as a timed-out outcome for
that sequence number and the loop proceeds; when no reply ever arrives the
run completes with exactly 5 timeout outcomes, one per sequence number, in
increasing sequence order, without aborting. -/
theorem timeout_run_spec :
    (∀ (pid : Nat) (sendOk : Nat → Bool) (recv : Nat → RecvResult)
        (seq : Nat) (rest : List Nat),
      sendOk seq = true → recv seq = RecvResult.err →
      loopModel pid sendOk recv (seq :: rest) =
        (build_packet seq pid :: (loopModel pid sendOk recv rest).1,
          (loopModel pid sendOk recv rest).2.map fun os => Outcome.timeout seq :: os)) ∧
    (∀ (procId : Nat) (sendOk : Nat → Bool) (recv : Nat → RecvResult),
      (∀ s, sendOk s = true) → (∀ s, recv s = RecvResult.err) →
      (pingModel (some ()) procId sendOk recv).2 =
        Except.ok [Outcome.timeout 0, Outcome.timeout 1, Outcome.timeout 2,
          Outcome.timeout 3, Outcome.timeout 4]) := by
  constructor
  · intro pid sendOk recv seq rest hs hr
    simp [loopModel, hs, probeOutcome, hr]
  · intro procId sendOk recv hs hr
    simp only [pingModel]
    rw [loopModel_all_sends _ _ _ _ fun s _ => hs s]
    simp [range_five, probeOutcome, hr]

/-- C4 witness: a transport that always fails the receive yields the five
timeout outcomes in order. -/
theorem timeout_run_spec_witness :
    (pingModel (some ()) 0 (fun _ => true) (fun _ => RecvResult.err)).2 =
      Except.ok [Outcome.timeout 0, Outcome.timeout 1, Outcome.timeout 2,
        Outcome.timeout 3, Outcome.timeout 4] :=
  timeout_run_spec.2 0 (fun _ => true) (fun _ => RecvResult.err)
    (fun _ => rfl) (fun _ => rfl)

/-- C5: a name-resolution failure aborts the run before any packet is built
(zero outbound packets); a send failure on any probe aborts the run with the
fatal send error; and receive failures never abort: when all sends succeed
the run always completes with 5 outcomes. -/
theorem fatal_isolation_spec :
    (∀ (procId : Nat) (sendOk : Nat → Bool) (recv : Nat → RecvResult),
      pingModel none procId sendOk recv = ([], Except.error PingErr.resolveFail)) ∧
    (∀ (procId k : Nat) (recv : Nat → RecvResult), k < 5 →
      (pingModel (some ()) procId (fun s => s != k) recv).2 =
        Except.error PingErr.sendFail) ∧
    (∀ (procId : Nat) (sendOk : Nat → Bool) (recv : Nat → RecvResult),
      (∀ s, sendOk s = true) →
      ∃ os, (pingModel (some ()) procId sendOk recv).2 = Except.ok os ∧
        os.length = 5) := by
  refine ⟨fun _ _ _ => rfl, fun procId k recv hk => ?_, fun procId sendOk recv hs => ?_⟩
  · simp only [pingModel]
    exact loopModel_send_fail _ _ _ _ ⟨k, List.mem_range.mpr hk, by simp⟩
  · simp only [pingModel]
    rw [loopModel_all_sends _ _ _ _ fun s _ => hs s]
    exact ⟨_, rfl, by simp⟩

/-- C5 witness: a send failure on the first probe aborts the run with the
fatal send error. -/
theorem fatal_isolation_spec_witness :
    (pingModel (some ()) 0 (fun s => s != 0) (fun _ => RecvResult.err)).2 =
      Except.error PingErr.sendFail :=
  fatal_isolation_spec.2.1 0 0 (fun _ => RecvResult.err) (by norm_num)

/-- C6: `build_packet` is pure and deterministic — identical inputs yield
the identical byte sequence — and the checksum bytes (bytes 2-3) are a
function of the other six bytes: packets agreeing after zeroing the checksum
field are equal. -/
theorem build_packet_deterministic :
    (∀ seq pid : Nat, build_packet seq pid = build_packet seq pid) ∧
    (∀ s p s' p' : Nat, zeroCS (build_packet s p) = zeroCS (build_packet s' p') →
      build_packet s p = build_packet s' p') := by
  refine ⟨fun _ _ => rfl, fun s p s' p' h => ?_⟩
  simp only [zeroCS, build_packet, beBytes, U16, List.set, List.append_eq,
    List.cons_append, List.nil_append, List.cons.injEq, and_true,
    true_and] at h
  have hp : p % 65536 = p' % 65536 := by omega
  have hs : s % 65536 = s' % 65536 := by omega
  simp only [build_packet, beBytes, U16]
  rw [hp, hs]

/-- C6 witness: arguments congruent modulo 2^16 yield packets whose
non-checksum bytes agree, hence identical packets. -/
theorem build_packet_deterministic_witness :
    build_packet 0 1 = build_packet 0 65537 :=
  build_packet_deterministic.2 0 1 0 65537 rfl

/-- C9: with resolution successful and all sends succeeding, the run builds
exactly the packets for sequence numbers 0,1,2,3,4 in increasing order, all
carrying the same identifier, the process id truncated to 16 bits; the
identifier field of every packet recombines to `procId % 2^16` and the
sequence field to the probe's sequence number. -/
theorem probe_identity_spec :
    ∀ (procId : Nat) (sendOk : Nat → Bool) (recv : Nat → RecvResult),
      (∀ s, sendOk s = true) →
      (pingModel (some ()) procId sendOk recv).1 =
        [build_packet 0 (procId % U16), build_packet 1 (procId % U16),
          build_packet 2 (procId % U16), build_packet 3 (procId % U16),
          build_packet 4 (procId % U16)] ∧
      (∀ seq : Nat, (build_packet seq (procId % U16)).getD 4 9 * 256 +
          (build_packet seq (procId % U16)).getD 5 9 = procId % U16) ∧
      (∀ seq : Nat, seq < 65536 →
        (build_packet seq (procId % U16)).getD 6 9 * 256 +
          (build_packet seq (procId % U16)).getD 7 9 = seq) := by
  intro procId sendOk recv hsend
  refine ⟨?_, fun seq => ?_, fun seq hseq => ?_⟩
  · simp only [pingModel]
    rw [loopModel_all_sends _ _ _ _ fun s _ => hsend s, range_five]
    simp
  · simp only [build_packet, beBytes, U16, List.getD_cons_zero, List.getD_cons_succ,
      List.append_eq, List.cons_append, List.nil_append]
    omega
  · simp only [build_packet, beBytes, U16, List.getD_cons_zero, List.getD_cons_succ,
      List.append_eq, List.cons_append, List.nil_append]
    omega

/-- C9 witness: for process id 70000 (which truncates to 4464) and an
all-sends-succeed transport, the five packets built are those of sequence
numbers 0..4 with the truncated identifier. -/
theorem probe_identity_spec_witness :
    (pingModel (some ()) 70000 (fun _ => true) (fun _ => RecvResult.err)).1 =
      [build_packet 0 (70000 % U16), build_packet 1 (70000 % U16),
        build_packet 2 (70000 % U16), build_packet 3 (70000 % U16),
        build_packet 4 (70000 % U16)] :=
  (probe_identity_spec 70000 (fun _ => true) (fun _ => RecvResult.err)
    (fun _ => rfl)).1

end Crabyknife
